import Mathlib

/-!
Verification development for the pytential symbolic execution core
(`pytential/symbolic/execution.py` and `pytential/symbolic/primitives.py`).

The Python code is shallowly embedded: Python dicts become association
lists with Python's assignment/update semantics, exceptions become
`Except PyError`, mutable per-object caches become explicitly threaded
state, and opaque numerical values (device arrays, bound operators)
become `Nat` identifiers.  Each definition carries a note pointing at
the source function it embeds.
-/

set_option linter.unusedVariables false

/-- Python exception kinds raised by the embedded code paths. -/
inductive PyError where
  | typeError (msg : String)
  | valueError (msg : String)
  | attributeError (msg : String)
  | keyError (msg : String)
  | assertionError (msg : String)
deriving DecidableEq, Repr

/-- Geometry identifiers: keys of a `GeometryCollection.places` dict and
payloads of `DOMAIN_TAG`.  `DEFAULT_SOURCE`/`DEFAULT_TARGET` are the class
tags from `primitives.py`; `str` is a string place name. -/
inductive GeoTag where
  | defaultSource
  | defaultTarget
  | str (s : String)
deriving DecidableEq, Repr

/-- Which concrete Python class of `DOMAIN_TAG` a domain tag is:
`DOMAIN_TAG` itself or one of its subclasses `QBX_DOMAIN_STAGE1`,
`QBX_DOMAIN_STAGE2`, `QBX_DOMAIN_QUAD_STAGE2` (primitives.py:264-310).
`DOMAIN_TAG.__eq__` compares the exact type together with the tag. -/
inductive DomainKind where
  | base
  | stage1
  | stage2
  | quadStage2
deriving DecidableEq, Repr

/-- Embedding of `DOMAIN_TAG` (primitives.py:264): a tag payload plus the
exact class, so that structural equality matches `DOMAIN_TAG.__eq__`
(`type(self) is type(other) and self.tag == other.tag`). -/
structure DOMAIN_TAG where
  kind : DomainKind
  tag : GeoTag
deriving DecidableEq, Repr

/-- DOF granularity: `QBX_DOF_NODE`, `QBX_DOF_CENTER`, `QBX_DOF_ELEMENT`
(primitives.py:313-325). -/
inductive Granularity where
  | node
  | center
  | element
deriving DecidableEq, Repr

/-- Embedding of `DOFDescriptor` (primitives.py:328): a domain tag plus a
granularity.  The constructor's wrapping of raw inputs lives in
`as_dofdesc` below. -/
structure DOFDescriptor where
  domain : DOMAIN_TAG
  granularity : Granularity
deriving DecidableEq, Repr

/-- Embedding of `DOFDescriptor.__eq__` (primitives.py:383-386):
`type(self) is type(other) and self.domain == other.domain and
self.granularity == other.granularity`.  Both sides here are
`DOFDescriptor`s, so the type test is identically true. -/
def DOFDescriptor.eqPy (a b : DOFDescriptor) : Bool :=
  decide (a.domain = b.domain) && decide (a.granularity = b.granularity)

/-- The geometry identifier a descriptor denotes; `execution.py` reads
this as the `geometry` attribute of a descriptor and uses it as a
`places` dict key.  In the `primitives.py` data model it is the payload
of the descriptor's domain tag. -/
def DOFDescriptor.geometry (d : DOFDescriptor) : GeoTag :=
  d.domain.tag

/-- The valid inputs of `as_dofdesc` (primitives.py:401-404) and of the
`DOFDescriptor` constructor: an existing descriptor, a string name, the
`DEFAULT_SOURCE`/`DEFAULT_TARGET` class tags, or a `DOMAIN_TAG` object. -/
inductive DescInput where
  | desc (d : DOFDescriptor)
  | str (s : String)
  | defaultSource
  | defaultTarget
  | domTag (t : DOMAIN_TAG)
deriving DecidableEq, Repr

/-- Embedding of `DOFDescriptor.__init__` with default granularity
(primitives.py:357-378) applied to a non-descriptor input: strings and
the default source/target tags are wrapped in a plain `DOMAIN_TAG`, an
existing `DOMAIN_TAG` is kept; granularity defaults to `QBX_DOF_NODE`. -/
def DOFDescriptor.ofInput : DescInput → DOFDescriptor
  | .desc d => d
  | .str s => ⟨⟨.base, .str s⟩, .node⟩
  | .defaultSource => ⟨⟨.base, .defaultSource⟩, .node⟩
  | .defaultTarget => ⟨⟨.base, .defaultTarget⟩, .node⟩
  | .domTag t => ⟨t, .node⟩

/-- Embedding of `as_dofdesc` (primitives.py:401-404): a descriptor is
returned unchanged, anything else is passed to the `DOFDescriptor`
constructor. -/
def as_dofdesc : DescInput → DOFDescriptor
  | .desc d => d
  | x => DOFDescriptor.ofInput x

/-- The `auto_where` argument of `_prepare_auto_where`
(execution.py:474-498): `None`, a single (non-tuple) identifier, or a
2-tuple/list. -/
inductive AutoWhereArg where
  | none
  | single (x : DescInput)
  | pair (a b : DescInput)
deriving DecidableEq, Repr

/-- Embedding of `_prepare_auto_where` (execution.py:474-498).  The
second argument models the optional `places` collection by its
`auto_where` attribute (always a pair of descriptors, as stored by the
`GeometryCollection` constructor). -/
def prepare_auto_where (auto_where : AutoWhereArg)
    (places : Option (DOFDescriptor × DOFDescriptor)) :
    DOFDescriptor × DOFDescriptor :=
  match auto_where with
  | .none =>
    match places with
    | .none => (as_dofdesc .defaultSource, as_dofdesc .defaultTarget)
    | .some (s, t) => (as_dofdesc (.desc s), as_dofdesc (.desc t))
  | .pair a b => (as_dofdesc a, as_dofdesc b)
  | .single x => (as_dofdesc x, as_dofdesc x)

/-- The Python class of a geometry object handed to `GeometryCollection`.
`qbxSource` is `QBXLayerPotentialSource`, `lpotSource` a non-QBX
`LayerPotentialSourceBase`, `potentialSource` any other
`PotentialSource`, `targetSet` a `TargetBase`, `discr` a meshmode
`Discretization`, and `unsupported` any other object. -/
inductive GeoKind where
  | qbxSource
  | lpotSource
  | potentialSource
  | targetSet
  | discr
  | unsupported
deriving DecidableEq, Repr

/-- A geometry object, abstracted to the class membership the dispatch
code tests with `isinstance` and the `ambient_dim` attribute the
`ambient_dim` property reads. -/
structure Geometry where
  kind : GeoKind
  ambient_dim : Nat
deriving DecidableEq, Repr

/-- Python `isinstance(p, PotentialSource)`; QBX and other layer
potential sources are subclasses. -/
def GeoKind.isPotentialSource : GeoKind → Bool
  | .qbxSource => true
  | .lpotSource => true
  | .potentialSource => true
  | _ => false

/-- Python `isinstance(p, TargetBase)`. -/
def GeoKind.isTargetBase : GeoKind → Bool
  | .targetSet => true
  | _ => false

/-- Python `isinstance(p, Discretization)`. -/
def GeoKind.isDiscretization : GeoKind → Bool
  | .discr => true
  | _ => false

/-- The validation predicate of the constructor loop
(execution.py:620-623): `isinstance(p, (PotentialSource, TargetBase,
Discretization))`. -/
def GeoKind.isSupported (k : GeoKind) : Bool :=
  k.isPotentialSource || k.isTargetBase || k.isDiscretization

/-- Python dict lookup on an association list (first matching key; our
dict operations below keep keys unique, matching a Python dict). -/
def dictGet? {K V : Type} [DecidableEq K] (m : List (K × V)) (k : K) :
    Option V :=
  (m.find? (fun p => p.1 = k)).map (·.2)

/-- Python dict assignment `m[k] = v`: overwrite in place when the key
exists, else append (Python dicts preserve insertion order). -/
def dictSet {K V : Type} [DecidableEq K] (m : List (K × V)) (k : K) (v : V) :
    List (K × V) :=
  if m.any (fun p => p.1 = k) then
    m.map (fun p => if p.1 = k then (k, v) else p)
  else
    m ++ [(k, v)]

/-- Python `a.update(b)`: assign every entry of `b` into `a`, later
entries overriding earlier ones on key collision. -/
def dictUpdate {K V : Type} [DecidableEq K] (a b : List (K × V)) :
    List (K × V) :=
  b.foldl (fun acc p => dictSet acc p.1 p.2) a

/-- Python 3 reserved keywords (`keyword.kwlist`), used by
`_is_valid_identifier` (execution.py:532-541). -/
def pyKeywords : List String :=
  ["False", "None", "True", "and", "as", "assert", "async", "await",
   "break", "class", "continue", "def", "del", "elif", "else", "except",
   "finally", "for", "from", "global", "if", "import", "in", "is",
   "lambda", "nonlocal", "not", "or", "pass", "raise", "return", "try",
   "while", "with", "yield"]

/-- ASCII reading of `str.isidentifier`: nonempty, first character a
letter or underscore, the rest letters, digits or underscores. -/
def isPyIdentifier (s : String) : Bool :=
  match s.data with
  | [] => false
  | c :: cs =>
    (c.isAlpha || c = '_') && cs.all (fun d => d.isAlphanum || d = '_')

/-- Embedding of `_is_valid_identifier` (execution.py:532-541):
an identifier that is not a reserved keyword. -/
def is_valid_identifier (s : String) : Bool :=
  isPyIdentifier s && !(pyKeywords.contains s)

/-- One named cache of a collection or bound expression: a dict from
hashable keys to values, both abstracted to `Nat` identifiers. -/
abbrev Cache := List (Nat × Nat)

/-- The `.caches` attribute (execution.py:599 and 756): a dict from cache
names to caches, populated by `get_cache`'s `setdefault`. -/
abbrev NamedCaches := List (String × Cache)

/-- Lookup of key `k` in the named cache `name`: `get_cache(name)[k]`,
`None`-valued when either the named cache is absent (so `setdefault`
would create it empty) or the key misses. -/
def cacheLookup (cs : NamedCaches) (name : String) (k : Nat) : Option Nat :=
  match dictGet? cs name with
  | .none => .none
  | .some c => dictGet? c k

/-- Store `v` under key `k` in the named cache `name`:
`get_cache(name)[k] = v` (creating the named cache via `setdefault` when
absent, as `get_cache` does). -/
def cacheStore (cs : NamedCaches) (name : String) (k v : Nat) :
    NamedCaches :=
  match dictGet? cs name with
  | .none => cs ++ [(name, [(k, v)])]
  | .some c => dictSet cs name (dictSet c k v)

/-- Embedding of `GeometryCollection` (execution.py:548).  `placesId` and
`cachesId` record the identity of the freshly allocated `places` dict
and `caches` dict, so that sharing between collections is expressible;
the constructor allocates both from a caller-supplied fresh-id supply. -/
structure GeometryCollection where
  places : List (GeoTag × Geometry)
  auto_where : DOFDescriptor × DOFDescriptor
  caches : NamedCaches
  placesId : Nat
  cachesId : Nat
deriving DecidableEq, Repr

/-- The `places` constructor argument (execution.py:574): a scalar
geometry object, a 2-tuple `(source_discr, target_discr)`, or a mapping
from names to geometry objects. -/
inductive PlacesArg where
  | single (g : Geometry)
  | pair (src tgt : Geometry)
  | mapping (m : List (GeoTag × Geometry))
deriving DecidableEq, Repr

/-- The intermediate value of `self.places` at the end of the
constructor's dispatch (execution.py:596-616): either a dict, or — via
the final `else: self.places = places` branch — the raw scalar argument
itself. -/
inductive PlacesField where
  | dict (m : List (GeoTag × Geometry))
  | raw (g : Geometry)
deriving DecidableEq, Repr

/-- The dispatch section of `GeometryCollection.__init__`
(execution.py:596-618): two successive `isinstance` chains that fill
`self.places` and may rebind the local `auto_source`/`auto_target`.
Returns the resulting `places` field together with the final
`(auto_source, auto_target)` pair. -/
def geometryCollectionDispatch (arg : PlacesArg)
    (asrc atgt : DOFDescriptor) :
    PlacesField × (DOFDescriptor × DOFDescriptor) :=
  -- first chain: `if isinstance(places, QBXLayerPotentialSource) ...
  -- elif isinstance(places, TargetBase) ...`
  let step1 : List (GeoTag × Geometry) × (DOFDescriptor × DOFDescriptor) :=
    match arg with
    | .single g =>
      if g.kind = .qbxSource then
        (dictSet [] asrc.geometry g, (asrc, asrc))
      else if g.kind.isTargetBase then
        (dictSet [] atgt.geometry g, (atgt, atgt))
      else ([], (asrc, atgt))
    | _ => ([], (asrc, atgt))
  let d1 := step1.1
  let asrc1 := step1.2.1
  let atgt1 := step1.2.2
  -- second chain: `if isinstance(places, (Discretization, PotentialSource))
  -- ... elif isinstance(places, tuple) ... else: self.places = places`
  match arg with
  | .single g =>
    if g.kind.isDiscretization || g.kind.isPotentialSource then
      (.dict (dictSet (dictSet d1 asrc1.geometry g) atgt1.geometry g),
       (asrc1, atgt1))
    else
      (.raw g, (asrc1, atgt1))
  | .pair src tgt =>
    (.dict (dictSet (dictSet d1 asrc1.geometry src) atgt1.geometry tgt),
     (asrc1, atgt1))
  | .mapping m => (.dict m, (asrc1, atgt1))

/-- The validation section of `GeometryCollection.__init__`
(execution.py:620-629): iterate the values of `self.places` (an
`AttributeError` when the dispatch left a raw non-mapping object there),
failing with a `TypeError` on an unsupported kind; then check every
string key is a valid identifier, failing with a `ValueError`. -/
def geometryCollectionValidate (f : PlacesField) :
    Except PyError (List (GeoTag × Geometry)) :=
  match f with
  | .raw _ =>
    .error (.attributeError "object has no attribute itervalues")
  | .dict m =>
    if m.any (fun p => !p.2.kind.isSupported) then
      .error (.typeError
        "Must pass discretization, targets or layer potential sources as places")
    else if m.any (fun p =>
        match p.1 with
        | .str s => !is_valid_identifier s
        | _ => false) then
      .error (.valueError "not a valid identifier")
    else
      .ok m

/-- Embedding of `GeometryCollection.__init__` (execution.py:574-631).
`freshId` supplies the identities of the two dicts (`self.places` when
freshly built, and `self.caches`) the constructor allocates. -/
def GeometryCollection.init (arg : PlacesArg) (auto_where : AutoWhereArg)
    (freshId : Nat) : Except PyError GeometryCollection :=
  let (asrc, atgt) := prepare_auto_where auto_where .none
  let (field, aw) := geometryCollectionDispatch arg asrc atgt
  match geometryCollectionValidate field with
  | .error e => .error e
  | .ok m =>
    .ok { places := m, auto_where := aw, caches := [],
          placesId := freshId, cachesId := freshId + 1 }

/-- Embedding of `pytools.single_valued`: the common value of a nonempty
list whose entries all agree, an error otherwise. -/
def single_valued : List Nat → Except PyError Nat
  | [] => .error (.valueError "empty sequence")
  | x :: xs =>
    if xs.all (fun y => y = x) then .ok x
    else .error (.valueError "sequence not single-valued")

/-- Embedding of the `GeometryCollection.ambient_dim` property
(execution.py:641-646): `single_valued` over the `ambient_dim` of every
geometry in the collection, evaluated only when the property is first
accessed. -/
def GeometryCollection.ambientDim (gc : GeometryCollection) :
    Except PyError Nat :=
  single_valued (gc.places.map (fun p => p.2.ambient_dim))

/-- Embedding of `GeometryCollection.copy` (execution.py:705-709): call
the constructor on a copy of the given (or own) places dict and the
given (or own) `auto_where`. -/
def GeometryCollection.copy (self : GeometryCollection)
    (places : Option (List (GeoTag × Geometry)))
    (auto_where : Option AutoWhereArg) (freshId : Nat) :
    Except PyError GeometryCollection :=
  GeometryCollection.init
    (.mapping (places.getD self.places))
    (auto_where.getD
      (.pair (.desc self.auto_where.1) (.desc self.auto_where.2)))
    freshId

/-- The argument of `GeometryCollection.merge`: a dict or another
collection (execution.py:711-725); `Option.none` models passing a falsy
value such as `None` or `{}`. -/
inductive MergeArg where
  | dict (m : List (GeoTag × Geometry))
  | coll (gc : GeometryCollection)
deriving DecidableEq, Repr

/-- Embedding of `GeometryCollection.merge` (execution.py:711-725):
`new_places = self.places.copy()`, update it with the argument's
entries, and construct the merged collection through `self.copy`
(which allocates fresh `places`/`caches` dicts). -/
def GeometryCollection.merge (self : GeometryCollection)
    (arg : Option MergeArg) (freshId : Nat) :
    Except PyError GeometryCollection :=
  let new_places :=
    match arg with
    | .none => self.places
    | .some (.dict m) => dictUpdate self.places m
    | .some (.coll gc) => dictUpdate self.places gc.places
  self.copy (.some new_places) .none freshId

/-- Embedding of `GeometryCollection.get_cache` / (identically)
`BoundExpression.get_cache` (execution.py:727-728, 761-762):
`self.caches.setdefault(name, {})`, returning the named cache and the
possibly-extended `caches` dict. -/
def getCacheSetdefault (cs : NamedCaches) (name : String) :
    Cache × NamedCaches :=
  match dictGet? cs name with
  | .some c => (c, cs)
  | .none => ([], cs ++ [(name, [])])

/-- The `scope` attribute of a `CommonSubexpression` node.  The mapper
(execution.py:247-253) compares it against `cse_scope.EXPRESSION` and
`cse_scope.DISCRETIZATION`; every other value (for instance
`cse_scope.GLOBAL`, or an unrecognized string) falls to the uncached
branch. -/
inductive CseScope where
  | expression
  | discretization
  | globalScope
  | unknown (n : Nat)
deriving DecidableEq, Repr

/-- The mutable state `map_common_subexpression` touches: the bound
expression's own `.caches`, the geometry collection's `.caches`, and a
count of how many times the underlying child computation
(`self.rec(expr.child)`) actually ran. -/
structure CseState where
  beCaches : NamedCaches
  gcCaches : NamedCaches
  work : Nat
deriving DecidableEq, Repr

/-- Embedding of `EvaluationMapperBase.map_common_subexpression`
(execution.py:247-261).  `childKey` is the hashable `expr.child` used as
the cache key and `childVal` the (deterministic) value `self.rec` would
compute for it; running the child computation increments `work`.
Expression scope uses `self.bound_expr.get_cache("cse")`, discretization
scope `self.places.get_cache("cse")`, and any other scope re-evaluates
without consulting any cache. -/
def map_common_subexpression (scope : CseScope) (childKey childVal : Nat)
    (s : CseState) : Nat × CseState :=
  match scope with
  | .expression =>
    match cacheLookup s.beCaches "cse" childKey with
    | .some v => (v, s)
    | .none =>
      (childVal,
       { s with beCaches := cacheStore s.beCaches "cse" childKey childVal,
                work := s.work + 1 })
  | .discretization =>
    match cacheLookup s.gcCaches "cse" childKey with
    | .some v => (v, s)
    | .none =>
      (childVal,
       { s with gcCaches := cacheStore s.gcCaches "cse" childKey childVal,
                work := s.work + 1 })
  | _ => (childVal, { s with work := s.work + 1 })

/-- Iterated evaluation of the same common-subexpression node:
`runCseN scope k v n s` evaluates it `n` times, threading the caches of
the same bound expression and collection. -/
def runCseN (scope : CseScope) (childKey childVal : Nat) :
    Nat → CseState → Nat × CseState
  | 0, s => (childVal, s)
  | n + 1, s =>
    let r := map_common_subexpression scope childKey childVal s
    runCseN scope childKey childVal n r.2

/-- The state `map_inverse` touches: the geometry collection's `.caches`
(the bound-op memo dict is `places.get_cache("bound_op")`), plus two
observation counters — how many times the `bind` call completed and how
many times `gmres` was entered.  In this program neither point is
reachable, so a faithful embedding can only leave both counts fixed. -/
structure InvState where
  gcCaches : NamedCaches
  bindCount : Nat
  gmresCount : Nat
deriving DecidableEq, Repr

/-- Embedding of `EvaluationMapperBase.map_inverse`
(execution.py:215-234), faithful to the staged code.  The memo dict is
`self.bound_expr.places.get_cache("bound_op")` — a cache of the geometry
collection, not of the bound expression; `get_cache`'s `setdefault` may
insert the empty named cache as a side effect.  On a cache miss, the
`except KeyError` handler evaluates the arguments of `bind(...)`, and
its third argument `self.bound_expr.iprec` (execution.py:224) reads an
attribute that `BoundExpression.__init__` (execution.py:753-759) never
sets and that nothing else in the repository defines — so the handler
raises `AttributeError` before `bind` is entered, before
`bound_op_cache[expr] = bound_op` stores a memo entry, and before the
solver is reached.  On a cache hit (unreachable in this program, since
the store above is the only writer of `"bound_op"`), the call
`bound_op.scipy_op(expr.variable_name, expr.dofdesc, **...)`
(execution.py:227) omits the required positional `dtype` parameter of
`BoundExpression.scipy_op(self, queue, arg_name, dtype, ...)`
(execution.py:769), raising `TypeError` — again before `gmres`.  The
`gmres` collaborator is kept as a parameter to make explicit that the
result never depends on it. -/
def map_inverse (gmres : Nat → Nat → Except Nat Nat)
    (exprKey : Nat) (s : InvState) :
    Except PyError Nat × InvState :=
  let cache := (getCacheSetdefault s.gcCaches "bound_op").1
  let cs' := (getCacheSetdefault s.gcCaches "bound_op").2
  match dictGet? cache exprKey with
  | .none =>
    (.error (.attributeError
       "BoundExpression object has no attribute iprec"),
     { s with gcCaches := cs' })
  | .some _ =>
    (.error (.typeError
       "scipy_op missing required positional argument dtype"),
     { s with gcCaches := cs' })

/-- One element group of a discretization's mesh: `nelements` elements,
each with `ndofs` nodes (meshmode exposes exactly these counts to the
reduction kernels). -/
structure ElGroup where
  nelements : Nat
  ndofs : Nat
deriving DecidableEq, Repr

/-- Number of nodes a group contributes to the global DOF vector. -/
def ElGroup.nnodes (g : ElGroup) : Nat := g.nelements * g.ndofs

/-- A discretization, abstracted to its element groups; groups are laid
out consecutively in the global per-node DOF vector (`node_nr_base`) and
in the global element numbering (`element_nr_base`). -/
structure Discr where
  groups : List ElGroup
deriving DecidableEq, Repr

/-- Total node count `discr.nnodes`. -/
def Discr.nnodes (d : Discr) : Nat :=
  (d.groups.map ElGroup.nnodes).sum

/-- Total element count `discr.mesh.nelements`. -/
def Discr.meshNelements (d : Discr) : Nat :=
  (d.groups.map (fun g => g.nelements)).sum

/-- The `(nelements, ndofs)`-shaped view `group.view(operand)` of the
group's slice of the global per-node vector, as a list of per-element
rows; `ops` is the global vector with the preceding groups' nodes
already dropped. -/
def groupRows {α : Type} (g : ElGroup) (ops : List α) : List (List α) :=
  (List.range g.nelements).map
    (fun el => (ops.drop (el * g.ndofs)).take g.ndofs)

/-- The per-node-granularity result (execution.py:115-129, 162-165): per
group, the kernel writes `result[el, idof] = red(jdof, operand[el, jdof])`
into `discr.groups[igrp].view(result)`, i.e. every node of an element
receives that element's reduced value. -/
def nodeReduce {α : Type} (red : List α → α) :
    List ElGroup → List α → List α
  | [], _ => []
  | g :: gs, ops =>
    ((groupRows g ops).map
      (fun row => List.replicate g.ndofs (red row))).flatten
      ++ nodeReduce red gs (ops.drop g.nnodes)

/-- The per-element-granularity result (execution.py:131-145, 166-169):
per group, the kernel writes `result[el] = red(jdof, operand[el, jdof])`
into `mesh_el_view(discr.mesh, igrp, result)`, i.e. one value per mesh
element, at the group's `element_nr_base` offset in the global element
numbering. -/
def elementReduce {α : Type} (red : List α → α) :
    List ElGroup → List α → List α
  | [], _ => []
  | g :: gs, ops =>
    (groupRows g ops).map red ++ elementReduce red gs (ops.drop g.nnodes)

/-- Embedding of `EvaluationMapperBase._map_elementwise_reduction`
(execution.py:113-171): assert the operand has shape `(discr.nnodes,)`,
then dispatch on the requested granularity; node granularity broadcasts
per-element reductions back to every node, element granularity produces
one value per mesh element, and any other granularity raises
`ValueError("unsupported granularity: ...")`. -/
def mapElementwiseReduction {α : Type} (red : List α → α) (d : Discr)
    (granularity : Granularity) (ops : List α) :
    Except PyError (List α) :=
  if ops.length ≠ d.nnodes then
    .error (.assertionError "operand shape mismatch")
  else
    match granularity with
    | .node => .ok (nodeReduce red d.groups ops)
    | .element => .ok (elementReduce red d.groups ops)
    | .center => .error (.valueError "unsupported granularity")

/-- Flat list of the mesh's elements in global element order, each as
`(ndofs of its group, its row of the operand)`; an index-arithmetic-free
view used to state what the reduction kernels compute. -/
def elementDofRows {α : Type} : List ElGroup → List α → List (Nat × List α)
  | [], _ => []
  | g :: gs, ops =>
    (groupRows g ops).map (fun r => (g.ndofs, r))
      ++ elementDofRows gs (ops.drop g.nnodes)

/-- A domain entry of `BoundExpression.scipy_op` (execution.py:793-799):
`None` stands for a scalar component (size 1), otherwise the component
lives on a discretization with the given node count. -/
inductive OpDomain where
  | scalar
  | geom (nnodes : Nat)
deriving DecidableEq, Repr

/-- The size contributed by one domain entry (execution.py:794-799). -/
def OpDomain.size : OpDomain → Nat
  | .scalar => 1
  | .geom n => n

/-- The `starts_and_ends` loop of `scipy_op` (execution.py:791-802):
`(total_dofs, total_dofs + size)` per domain, in declaration order,
with `total_dofs` accumulating. -/
def seBuild : List OpDomain → Nat → List (Nat × Nat)
  | [], _ => []
  | dom :: doms, t => (t, t + dom.size) :: seBuild doms (t + dom.size)

/-- The offset table passed to `MatVecOp`. -/
def startsAndEnds (doms : List OpDomain) : List (Nat × Nat) :=
  seBuild doms 0

/-- The `total_dofs` accumulated by the same loop. -/
def totalDofs (doms : List OpDomain) : Nat :=
  (doms.map OpDomain.size).sum

/-- A vector tagged with its residency: `onHost = true` models a
`numpy.ndarray`, `false` a device-resident `pyopencl` array.  `matvec`
moves host input to the device and moves the result back. -/
structure HVec (α : Type) where
  onHost : Bool
  data : List α
deriving DecidableEq, Repr

/-- The value bound under `arg_name` and the evaluation result: either a
single flat array or an object array of per-domain pieces. -/
inductive ArrOrObj (α : Type) where
  | arr (v : List α)
  | obj (vs : List (List α))
deriving DecidableEq, Repr

/-- Python slice `x[start:end]`. -/
def listSlice {α : Type} (x : List α) (s e : Nat) : List α :=
  (x.drop s).take (e - s)

/-- The slice assignment `joined_result[start:end] = res_i`
(execution.py:435): overwrite `seg.length` entries of `buf` starting at
position `s`. -/
def writeSeg {α : Type} (buf : List α) (s : Nat) (seg : List α) :
    List α :=
  buf.take s ++ seg ++ buf.drop (s + seg.length)

/-- Embedding of `MatVecOp.matvec` (execution.py:412-441).  `evalB`
models `self.bound_expr(queue, **args)` as a function of the value bound
under `arg_name` (a host input is first moved to the device, recorded in
`out_host`).  With more than one declared domain the flat input is split
into the `starts_and_ends` slices and the result pieces are written back
into a flat buffer at the same offsets; the result is returned with the
input's residency (`result.get()` when the input was a host array). -/
def matvec {α : Type} [Inhabited α] (evalB : ArrOrObj α → ArrOrObj α)
    (se : List (Nat × Nat)) (total : Nat) (x : HVec α) : HVec α :=
  let out_host := x.onHost
  let xd := x.data
  if se.length > 1 then
    let pieces := se.map (fun p => listSlice xd p.1 p.2)
    let result :=
      match evalB (.obj pieces) with
      | .obj vs => vs
      | .arr v => [v]   -- `zip(result, ...)` over a non-object result
    let joined := (result.zip se).foldl
      (fun buf pr => writeSeg buf pr.2.1 pr.1)
      (List.replicate total default)
    ⟨out_host, joined⟩
  else
    let result :=
      match evalB (.arr xd) with
      | .arr v => v
      | .obj vs => vs.flatten
    ⟨out_host, result⟩

/-- Sequential chunking of a flat vector by the declared domain sizes:
the specification-side description of what the `starts_and_ends` slices
extract. -/
def seqChunks {α : Type} : List OpDomain → List α → List (List α)
  | [], _ => []
  | dom :: doms, r => r.take dom.size :: seqChunks doms (r.drop dom.size)

/-- Conclusion of claim C1 (code bug), cache-miss side: evaluating an
iterative-inverse sub-expression whose key misses the collection's
`"bound_op"` cache raises `AttributeError` (from the nonexistent
`BoundExpression.iprec`), stores no memo entry (the key still misses
afterwards), never completes a `bind` and never enters `gmres` —
whatever the solver would do. -/
def inverseMissRaisesSpec (gmres : Nat → Nat → Except Nat Nat)
    (k : Nat) (s0 : InvState) : Prop :=
  (map_inverse gmres k s0).1
    = .error (.attributeError
        "BoundExpression object has no attribute iprec") ∧
  cacheLookup (map_inverse gmres k s0).2.gcCaches "bound_op" k = none ∧
  (map_inverse gmres k s0).2.bindCount = s0.bindCount ∧
  (map_inverse gmres k s0).2.gmresCount = s0.gmresCount

/-- Conclusion of claim C2 (amended): construction succeeds with the
mapping stored as is, and a later `ambient_dim` access fails whenever
two geometries disagree on ambient dimension. -/
def lazyAmbientDimSpec (m : List (GeoTag × Geometry)) (aw : AutoWhereArg)
    (fid : Nat) : Prop :=
  ∃ gc, GeometryCollection.init (.mapping m) aw fid = .ok gc ∧
    gc.places = m ∧
    (∀ p q, p ∈ m → q ∈ m → p.2.ambient_dim ≠ q.2.ambient_dim →
      gc.ambientDim = .error (.valueError "sequence not single-valued"))

/-- Conclusion of claim C4: behavior of the elementwise reduction at
node granularity (same shape, per-element broadcast of the reduced
value), at element granularity (one value per mesh element in global
element order), and the failure on any other granularity. -/
def elementwiseReductionSpec {α : Type} [Inhabited α] (red : List α → α)
    (d : Discr) (ops : List α) : Prop :=
  (∃ res, mapElementwiseReduction red d .node ops = .ok res ∧
    res.length = ops.length ∧
    (∀ e, e < (elementDofRows d.groups ops).length →
      (res.drop ((((elementDofRows d.groups ops).take e).map Prod.fst).sum)).take
          ((elementDofRows d.groups ops).getD e default).1
        = List.replicate ((elementDofRows d.groups ops).getD e default).1
            (red ((elementDofRows d.groups ops).getD e default).2))) ∧
  (∃ res, mapElementwiseReduction red d .element ops = .ok res ∧
    res.length = d.meshNelements ∧
    (∀ e, e < (elementDofRows d.groups ops).length →
      res.getD e default
        = red ((elementDofRows d.groups ops).getD e default).2)) ∧
  mapElementwiseReduction red d .center ops
    = .error (.valueError "unsupported granularity")

/-- Conclusion of claim C5: the offset table is the cumulative-sum table
of the declared domain sizes, the slices it induces are the sequential
chunks of the input, re-concatenating them reproduces the input, the
round trip through `matvec` with an identity evaluation is the identity,
and the output residency always matches the input residency. -/
def matvecSplitSpec {α : Type} [Inhabited α] (doms : List OpDomain)
    (x : HVec α) : Prop :=
  (∀ i dm, doms[i]? = some dm →
    (startsAndEnds doms)[i]? =
      some (((doms.take i).map OpDomain.size).sum,
            ((doms.take i).map OpDomain.size).sum + dm.size)) ∧
  ((startsAndEnds doms).map (fun p => listSlice x.data p.1 p.2)
    = seqChunks doms x.data) ∧
  (seqChunks doms x.data).flatten = x.data ∧
  matvec (fun r => r) (startsAndEnds doms) (totalDofs doms) x = x ∧
  (∀ evalB : ArrOrObj α → ArrOrObj α,
    (matvec evalB (startsAndEnds doms) (totalDofs doms) x).onHost
      = x.onHost)

/-- Conclusion of claim C6 for the two caching scopes: after one
evaluation of a fresh common-subexpression key, the value is memoized in
the scope's cache, the other scope's cache is untouched, the underlying
computation ran once, and every later evaluation (even with a changed
candidate recomputation value) returns the memoized value and leaves the
state unchanged. -/
def cseCachedScopeSpec (scope : CseScope) (key v : Nat) (s0 : CseState)
    (other : CseState → NamedCaches) (own : CseState → NamedCaches) :
    Prop :=
  (map_common_subexpression scope key v s0).1 = v ∧
  (map_common_subexpression scope key v s0).2.work = s0.work + 1 ∧
  other (map_common_subexpression scope key v s0).2 = other s0 ∧
  cacheLookup (own (map_common_subexpression scope key v s0).2) "cse" key
    = some v ∧
  (∀ v', map_common_subexpression scope key v'
      (map_common_subexpression scope key v s0).2
    = (v, (map_common_subexpression scope key v s0).2)) ∧
  (∀ n, runCseN scope key v n (map_common_subexpression scope key v s0).2
    = (v, (map_common_subexpression scope key v s0).2))

/-- Conclusion of claim C6 for unrecognized scopes: nothing is cached
and the underlying computation reruns on every evaluation. -/
def cseUncachedScopeSpec (scope : CseScope) (key v : Nat) (s0 : CseState) :
    Prop :=
  ∀ n, (runCseN scope key v n s0).1 = v ∧
    (runCseN scope key v n s0).2.beCaches = s0.beCaches ∧
    (runCseN scope key v n s0).2.gcCaches = s0.gcCaches ∧
    (runCseN scope key v n s0).2.work = s0.work + n

/-- The places entries a `merge` argument contributes: the dict itself,
or the other collection's `places`. -/
def MergeArg.entries : MergeArg → List (GeoTag × Geometry)
  | .dict m => m
  | .coll gc => gc.places

/-- Conclusion of claim C7: the merged collection resolves names to the
argument's entry when present and to the original collection's entry
otherwise, and carries freshly allocated, empty caches. -/
def mergeSpec (self : GeometryCollection) (arg : MergeArg) (fid : Nat) :
    Prop :=
  ∃ merged, self.merge (.some arg) fid = .ok merged ∧
    (∀ k v, dictGet? (MergeArg.entries arg) k = some v →
      dictGet? merged.places k = some v) ∧
    (∀ k, dictGet? (MergeArg.entries arg) k = none →
      dictGet? merged.places k = dictGet? self.places k) ∧
    merged.caches = [] ∧
    merged.placesId = fid ∧ merged.cachesId = fid + 1

/-- Conclusion of claim C10: a bare target-set is rejected by the
constructor (the final dispatch branch stores the raw object and the
validation pass fails iterating it), while a potential source or a
discretization is accepted and registered under the resulting
collection's default source and target names. -/
def singleDispatchAccepted (g : Geometry) (fid : Nat) : Prop :=
  ∃ gc, GeometryCollection.init (.single g) .none fid = .ok gc ∧
    dictGet? gc.places gc.auto_where.1.geometry = some g ∧
    dictGet? gc.places gc.auto_where.2.geometry = some g


/-- Validation condition of the `GeometryCollection` constructor, as a
decidable check: every entry's geometry is of a supported kind and every
string key is a valid identifier. -/
def entriesOK (m : List (GeoTag × Geometry)) : Bool :=
  m.all (fun p =>
    p.2.kind.isSupported &&
    (match p.1 with
     | .str s => is_valid_identifier s
     | _ => true))

/-! Helper lemmas about the Python-dict embedding. -/

theorem dictGet?_cons {K V : Type} [DecidableEq K] (p : K × V)
    (m : List (K × V)) (k : K) :
    dictGet? (p :: m) k = if p.1 = k then some p.2 else dictGet? m k := by
  by_cases h : p.1 = k
  · simp [dictGet?, List.find?_cons_of_pos, h]
  · simp [dictGet?, List.find?_cons_of_neg, h]

theorem dictGet?_eq_none_of_keys {K V : Type} [DecidableEq K]
    (m : List (K × V)) (k : K) (h : ∀ q ∈ m, q.1 ≠ k) :
    dictGet? m k = none := by
  induction m with
  | nil => rfl
  | cons p ps ih =>
    rw [dictGet?_cons, if_neg (h p (List.mem_cons_self p ps))]
    exact ih (fun q hq => h q (List.mem_cons_of_mem p hq))

theorem dictGet?_append_single_none {K V : Type} [DecidableEq K]
    (m : List (K × V)) (k k' : K) (v : V) (hm : dictGet? m k' = none) :
    dictGet? (m ++ [(k, v)]) k' = if k = k' then some v else none := by
  induction m with
  | nil => simp [dictGet?_cons, dictGet?]
  | cons p ps ih =>
    rw [dictGet?_cons] at hm
    by_cases h : p.1 = k'
    · simp [h] at hm
    · rw [if_neg h] at hm
      rw [List.cons_append, dictGet?_cons, if_neg h]
      exact ih hm

theorem dictGet?_append_single_some {K V : Type} [DecidableEq K]
    (m : List (K × V)) (k k' : K) (v w : V) (hm : dictGet? m k' = some w) :
    dictGet? (m ++ [(k, v)]) k' = some w := by
  induction m with
  | nil => simp [dictGet?] at hm
  | cons p ps ih =>
    rw [dictGet?_cons] at hm
    rw [List.cons_append, dictGet?_cons]
    by_cases h : p.1 = k'
    · rw [if_pos h] at hm ⊢; exact hm
    · rw [if_neg h] at hm ⊢; exact ih hm

theorem dictGet?_map_subst {K V : Type} [DecidableEq K]
    (m : List (K × V)) (k k' : K) (v : V) (hne : k' ≠ k) :
    dictGet? (m.map (fun p => if p.1 = k then (k, v) else p)) k'
      = dictGet? m k' := by
  induction m with
  | nil => rfl
  | cons p ps ih =>
    rw [List.map_cons]
    by_cases h : p.1 = k
    · rw [if_pos h, dictGet?_cons, dictGet?_cons,
        if_neg (show ¬((k, v).1 = k') from fun hh => hne hh.symm),
        if_neg (show ¬(p.1 = k') from fun hh => hne (h ▸ hh : k = k').symm)]
      exact ih
    · rw [if_neg h, dictGet?_cons, dictGet?_cons]
      by_cases h2 : p.1 = k'
      · rw [if_pos h2, if_pos h2]
      · rw [if_neg h2, if_neg h2]; exact ih

theorem dictGet?_map_subst_self {K V : Type} [DecidableEq K]
    (m : List (K × V)) (k : K) (v : V)
    (hmem : m.any (fun p => p.1 = k) = true) :
    dictGet? (m.map (fun p => if p.1 = k then (k, v) else p)) k
      = some v := by
  induction m with
  | nil => simp at hmem
  | cons p ps ih =>
    rw [List.map_cons]
    by_cases h : p.1 = k
    · rw [if_pos h, dictGet?_cons, if_pos rfl]
    · rw [if_neg h, dictGet?_cons, if_neg h]
      rw [List.any_cons] at hmem
      simp only [h, decide_eq_true_eq] at hmem
      apply ih
      simpa using hmem


theorem dictGet?_dictSet_self {K V : Type} [DecidableEq K]
    (m : List (K × V)) (k : K) (v : V) :
    dictGet? (dictSet m k v) k = some v := by
  unfold dictSet
  by_cases hmem : m.any (fun p => p.1 = k) = true
  · rw [if_pos hmem]
    exact dictGet?_map_subst_self m k v hmem
  · rw [if_neg hmem]
    have hn : dictGet? m k = none := by
      refine dictGet?_eq_none_of_keys m k (fun q hq heq => ?_)
      exact hmem (List.any_eq_true.mpr ⟨q, hq, by simp [heq]⟩)
    rw [dictGet?_append_single_none m k k v hn, if_pos rfl]

theorem dictGet?_dictSet_ne {K V : Type} [DecidableEq K]
    (m : List (K × V)) (k k' : K) (v : V) (hne : k' ≠ k) :
    dictGet? (dictSet m k v) k' = dictGet? m k' := by
  unfold dictSet
  by_cases hmem : m.any (fun p => p.1 = k) = true
  · rw [if_pos hmem]
    exact dictGet?_map_subst m k k' v hne
  · rw [if_neg hmem]
    cases hv : dictGet? m k' with
    | none =>
      rw [dictGet?_append_single_none m k k' v hv,
        if_neg (fun hh => hne hh.symm)]
    | some w => exact dictGet?_append_single_some m k k' v w hv

theorem mem_dictSet {K V : Type} [DecidableEq K]
    (m : List (K × V)) (k : K) (v : V) (q : K × V)
    (hq : q ∈ dictSet m k v) : q ∈ m ∨ q = (k, v) := by
  unfold dictSet at hq
  by_cases hmem : m.any (fun p => p.1 = k) = true
  · rw [if_pos hmem] at hq
    rcases List.mem_map.mp hq with ⟨p, hp, hpq⟩
    by_cases h : p.1 = k
    · right; rw [if_pos h] at hpq; exact hpq.symm
    · left; rw [if_neg h] at hpq; exact hpq ▸ hp
  · rw [if_neg hmem] at hq
    rcases List.mem_append.mp hq with h | h
    · exact Or.inl h
    · right; simpa using h

theorem mem_dictUpdate {K V : Type} [DecidableEq K]
    (a b : List (K × V)) (q : K × V) (hq : q ∈ dictUpdate a b) :
    q ∈ a ∨ q ∈ b := by
  induction b generalizing a with
  | nil => exact Or.inl hq
  | cons p ps ih =>
    have hq' : q ∈ dictUpdate (dictSet a p.1 p.2) ps := hq
    rcases ih (dictSet a p.1 p.2) hq' with h | h
    · rcases mem_dictSet a p.1 p.2 q h with h2 | h2
      · exact Or.inl h2
      · exact Or.inr (h2 ▸ List.mem_cons_self p ps)
    · exact Or.inr (List.mem_cons_of_mem p h)

theorem dictGet?_dictUpdate_none {K V : Type} [DecidableEq K]
    (a b : List (K × V)) (k : K) (hb : dictGet? b k = none) :
    dictGet? (dictUpdate a b) k = dictGet? a k := by
  induction b generalizing a with
  | nil => rfl
  | cons p ps ih =>
    rw [dictGet?_cons] at hb
    by_cases h : p.1 = k
    · simp [h] at hb
    · rw [if_neg h] at hb
      have step : dictUpdate a (p :: ps) = dictUpdate (dictSet a p.1 p.2) ps :=
        rfl
      rw [step, ih (dictSet a p.1 p.2) hb,
        dictGet?_dictSet_ne a p.1 k p.2 (fun hh => h hh.symm)]

theorem dictGet?_dictUpdate_some {K V : Type} [DecidableEq K]
    (a b : List (K × V)) (k : K) (v : V)
    (hnd : (b.map Prod.fst).Nodup) (hb : dictGet? b k = some v) :
    dictGet? (dictUpdate a b) k = some v := by
  induction b generalizing a with
  | nil => simp [dictGet?] at hb
  | cons p ps ih =>
    rw [List.map_cons, List.nodup_cons] at hnd
    rw [dictGet?_cons] at hb
    have step : dictUpdate a (p :: ps) = dictUpdate (dictSet a p.1 p.2) ps :=
      rfl
    by_cases h : p.1 = k
    · rw [if_pos h] at hb
      have hps : dictGet? ps k = none := by
        refine dictGet?_eq_none_of_keys ps k (fun q hq heq => ?_)
        exact hnd.1 (h ▸ heq ▸ List.mem_map_of_mem Prod.fst hq)
      rw [step, dictGet?_dictUpdate_none (dictSet a p.1 p.2) ps k hps,
        h, dictGet?_dictSet_self]
      exact hb
    · rw [if_neg h] at hb
      rw [step]
      exact ih (dictSet a p.1 p.2) hnd.2 hb

/-- Claim C9: descriptor construction is idempotent under value
equality: for every valid input (a descriptor, a string name, a default
source/target tag, or a domain tag), `as_dofdesc (as_dofdesc x)` is the
very same descriptor as `as_dofdesc x` — in particular the two compare
equal under `DOFDescriptor.__eq__` — and two descriptors compare equal
exactly when their domain and granularity are equal. -/
theorem C9_as_dofdesc_idempotent :
    (∀ x : DescInput,
      as_dofdesc (.desc (as_dofdesc x)) = as_dofdesc x) ∧
    (∀ x : DescInput,
      DOFDescriptor.eqPy (as_dofdesc (.desc (as_dofdesc x))) (as_dofdesc x)
        = true) ∧
    (∀ a b : DOFDescriptor,
      DOFDescriptor.eqPy a b = true ↔
        a.domain = b.domain ∧ a.granularity = b.granularity) := by
  refine ⟨fun x => rfl, fun x => ?_, fun a b => ?_⟩
  · simp only [DOFDescriptor.eqPy, Bool.and_eq_true, decide_eq_true_eq]
    exact ⟨rfl, rfl⟩
  · simp [DOFDescriptor.eqPy]

/-- Claim C8: `_prepare_auto_where` resolves the default
(source, target) pair with the precedence: explicit 2-tuple as
(source, target); explicit single value for both; otherwise the
collection's own `auto_where`; otherwise the library defaults
`DEFAULT_SOURCE`/`DEFAULT_TARGET` — always returning DOF descriptors. -/
theorem C8_prepare_auto_where_precedence :
    (∀ (a b : DescInput) (places : Option (DOFDescriptor × DOFDescriptor)),
      prepare_auto_where (.pair a b) places
        = (as_dofdesc a, as_dofdesc b)) ∧
    (∀ (x : DescInput) (places : Option (DOFDescriptor × DOFDescriptor)),
      prepare_auto_where (.single x) places
        = (as_dofdesc x, as_dofdesc x)) ∧
    (∀ s t : DOFDescriptor,
      prepare_auto_where .none (.some (s, t)) = (s, t)) ∧
    prepare_auto_where .none .none
      = (as_dofdesc .defaultSource, as_dofdesc .defaultTarget) := by
  exact ⟨fun a b places => rfl, fun x places => rfl, fun s t => rfl, rfl⟩

/-! Helper lemmas about the named-cache embedding. -/

theorem cacheLookup_cacheStore_self (cs : NamedCaches) (name : String)
    (k v : Nat) : cacheLookup (cacheStore cs name k v) name k = some v := by
  unfold cacheStore
  cases h : dictGet? cs name with
  | none =>
    unfold cacheLookup
    rw [dictGet?_append_single_none cs name name [(k, v)] h, if_pos rfl]
    show dictGet? [(k, v)] k = some v
    rw [dictGet?_cons]
    simp
  | some c =>
    unfold cacheLookup
    rw [dictGet?_dictSet_self cs name (dictSet c k v)]
    exact dictGet?_dictSet_self c k v

theorem runCseN_fixpoint (scope : CseScope) (key v : Nat) (s : CseState)
    (hfix : map_common_subexpression scope key v s = (v, s)) :
    ∀ n, runCseN scope key v n s = (v, s) := by
  intro n
  induction n with
  | zero => rfl
  | succ n ih =>
    show runCseN scope key v n (map_common_subexpression scope key v s).2
      = (v, s)
    rw [hfix]
    exact ih

theorem map_cse_uncached (scope : CseScope) (key v : Nat) (s : CseState)
    (h1 : scope ≠ .expression) (h2 : scope ≠ .discretization) :
    map_common_subexpression scope key v s
      = (v, { s with work := s.work + 1 }) := by
  cases scope with
  | expression => exact absurd rfl h1
  | discretization => exact absurd rfl h2
  | globalScope => rfl
  | unknown n => rfl

theorem runCseN_uncached (scope : CseScope) (key v : Nat)
    (h1 : scope ≠ .expression) (h2 : scope ≠ .discretization) :
    ∀ (n : Nat) (s : CseState),
      runCseN scope key v n s = (v, { s with work := s.work + n }) := by
  intro n
  induction n with
  | zero => intro s; rfl
  | succ n ih =>
    intro s
    show runCseN scope key v n (map_common_subexpression scope key v s).2
      = _
    rw [map_cse_uncached scope key v s h1 h2]
    rw [ih { s with work := s.work + 1 }]
    have h : s.work + 1 + n = s.work + (n + 1) := by omega
    rw [h]

/-- Claim C6: a common-subexpression node with expression scope is
looked up / computed-and-stored in the bound expression's own cache,
with discretization scope in the geometry collection's cache, and with
any other scope it is always re-evaluated and never cached; within a
scope the underlying computation runs at most once per distinct key
across repeated evaluations, later lookups returning the memoized value
unchanged. -/
theorem C6_cse_scoped_caching :
    ∀ (key v : Nat) (s0 : CseState),
      (cacheLookup s0.beCaches "cse" key = none →
        cseCachedScopeSpec .expression key v s0
          (fun s => s.gcCaches) (fun s => s.beCaches)) ∧
      (cacheLookup s0.gcCaches "cse" key = none →
        cseCachedScopeSpec .discretization key v s0
          (fun s => s.beCaches) (fun s => s.gcCaches)) ∧
      (∀ scope, scope ≠ .expression → scope ≠ .discretization →
        cseUncachedScopeSpec scope key v s0) := by
  intro key v s0
  refine ⟨fun h => ?_, fun h => ?_, fun scope h1 h2 => ?_⟩
  · have hrun : map_common_subexpression .expression key v s0
        = (v, { s0 with
            beCaches := cacheStore s0.beCaches "cse" key v,
            work := s0.work + 1 }) := by
      simp [map_common_subexpression, h]
    have hmemo1 : cacheLookup
        (cacheStore s0.beCaches "cse" key v) "cse" key = some v :=
      cacheLookup_cacheStore_self s0.beCaches "cse" key v
    have hfix1 : ∀ v', map_common_subexpression .expression key v'
        { s0 with beCaches := cacheStore s0.beCaches "cse" key v,
                  work := s0.work + 1 }
        = (v, { s0 with beCaches := cacheStore s0.beCaches "cse" key v,
                        work := s0.work + 1 }) := by
      intro v'
      simp [map_common_subexpression, hmemo1]
    refine ⟨?_, ?_, ?_, ?_, ?_, ?_⟩
    · rw [hrun]
    · rw [hrun]
    · rw [hrun]
    · rw [hrun]; exact hmemo1
    · intro v'; rw [hrun]; exact hfix1 v'
    · intro n; rw [hrun]
      exact runCseN_fixpoint .expression key v _ (hfix1 v) n
  · have hrun : map_common_subexpression .discretization key v s0
        = (v, { s0 with
            gcCaches := cacheStore s0.gcCaches "cse" key v,
            work := s0.work + 1 }) := by
      simp [map_common_subexpression, h]
    have hmemo1 : cacheLookup
        (cacheStore s0.gcCaches "cse" key v) "cse" key = some v :=
      cacheLookup_cacheStore_self s0.gcCaches "cse" key v
    have hfix1 : ∀ v', map_common_subexpression .discretization key v'
        { s0 with gcCaches := cacheStore s0.gcCaches "cse" key v,
                  work := s0.work + 1 }
        = (v, { s0 with gcCaches := cacheStore s0.gcCaches "cse" key v,
                        work := s0.work + 1 }) := by
      intro v'
      simp [map_common_subexpression, hmemo1]
    refine ⟨?_, ?_, ?_, ?_, ?_, ?_⟩
    · rw [hrun]
    · rw [hrun]
    · rw [hrun]
    · rw [hrun]; exact hmemo1
    · intro v'; rw [hrun]; exact hfix1 v'
    · intro n; rw [hrun]
      exact runCseN_fixpoint .discretization key v _ (hfix1 v) n
  · intro n
    rw [runCseN_uncached scope key v h1 h2 n s0]
    exact ⟨rfl, rfl, rfl, rfl⟩

/-- Witness for claim C6: the cached-scope and uncached-scope behavior
at a concrete fresh key, value and empty initial caches. -/
theorem C6_cse_scoped_caching_witness :
    (cacheLookup (CseState.mk [] [] 0).beCaches "cse" 1 = none) ∧
    cseCachedScopeSpec .expression 1 42 (CseState.mk [] [] 0)
      (fun s => s.gcCaches) (fun s => s.beCaches) ∧
    cseCachedScopeSpec .discretization 1 42 (CseState.mk [] [] 0)
      (fun s => s.beCaches) (fun s => s.gcCaches) ∧
    cseUncachedScopeSpec .globalScope 1 42 (CseState.mk [] [] 0) :=
  ⟨rfl,
   (C6_cse_scoped_caching 1 42 (CseState.mk [] [] 0)).1 rfl,
   (C6_cse_scoped_caching 1 42 (CseState.mk [] [] 0)).2.1 rfl,
   (C6_cse_scoped_caching 1 42 (CseState.mk [] [] 0)).2.2 .globalScope
     (by simp) (by simp)⟩

theorem getCacheSetdefault_fst (cs : NamedCaches) (name : String)
    (k : Nat) :
    dictGet? (getCacheSetdefault cs name).1 k = cacheLookup cs name k := by
  unfold getCacheSetdefault cacheLookup
  cases dictGet? cs name <;> rfl

theorem cacheLookup_getCacheSetdefault (cs : NamedCaches) (name : String)
    (k : Nat) :
    cacheLookup (getCacheSetdefault cs name).2 name k
      = cacheLookup cs name k := by
  unfold getCacheSetdefault
  cases h : dictGet? cs name with
  | some c => simp [cacheLookup, h]
  | none =>
    unfold cacheLookup
    rw [h, dictGet?_append_single_none cs name name [] h, if_pos rfl]
    rfl

/-- Claim C1 is right about the intended behavior and the code cannot
exhibit it: every evaluation of an iterative-inverse sub-expression
raises before the claimed bind/memoize/solve pipeline runs.  On a cache
miss (the only reachable case — the handler's own store is the sole
writer of the `"bound_op"` cache), the `except KeyError` handler's
access `self.bound_expr.iprec` raises `AttributeError`: no sub-operator
is bound, no memo entry is stored, and the Krylov solve is never
reached, so its convergence-failure condition can never propagate.  Even
a hypothetical cache hit raises `TypeError` at the `scipy_op` call
(missing its required `dtype` argument) before the solve.  In both cases
the result is independent of the `gmres` collaborator and the
bind/solve counters stay fixed. -/
theorem C1_map_inverse_always_raises
    (gmres : Nat → Nat → Except Nat Nat) (k : Nat) (s : InvState) :
    (cacheLookup s.gcCaches "bound_op" k = none →
      inverseMissRaisesSpec gmres k s) ∧
    (∀ b, cacheLookup s.gcCaches "bound_op" k = some b →
      (map_inverse gmres k s).1
        = .error (.typeError
            "scipy_op missing required positional argument dtype") ∧
      (map_inverse gmres k s).2.bindCount = s.bindCount ∧
      (map_inverse gmres k s).2.gmresCount = s.gmresCount) := by
  constructor
  · intro h
    have h1 : dictGet? (getCacheSetdefault s.gcCaches "bound_op").1 k
        = none := by
      rw [getCacheSetdefault_fst]
      exact h
    have hrun : map_inverse gmres k s
        = (.error (.attributeError
             "BoundExpression object has no attribute iprec"),
           { s with
               gcCaches := (getCacheSetdefault s.gcCaches "bound_op").2 }) := by
      simp [map_inverse, h1]
    refine ⟨?_, ?_, ?_, ?_⟩
    · rw [hrun]
    · rw [hrun]
      show cacheLookup (getCacheSetdefault s.gcCaches "bound_op").2
          "bound_op" k = none
      rw [cacheLookup_getCacheSetdefault]
      exact h
    · rw [hrun]
    · rw [hrun]
  · intro b hb
    have h1 : dictGet? (getCacheSetdefault s.gcCaches "bound_op").1 k
        = some b := by
      rw [getCacheSetdefault_fst]
      exact hb
    have hrun : map_inverse gmres k s
        = (.error (.typeError
             "scipy_op missing required positional argument dtype"),
           { s with
               gcCaches := (getCacheSetdefault s.gcCaches "bound_op").2 }) := by
      simp [map_inverse, h1]
    exact ⟨by rw [hrun], by rw [hrun], by rw [hrun]⟩

/-- Witness for claim C1: the first iterative-inverse evaluation over a
fresh collection (empty caches, key 7, a solver that would succeed)
raises the `AttributeError`, leaves the memo empty and never binds or
solves. -/
theorem C1_map_inverse_always_raises_witness :
    cacheLookup (InvState.mk [] 0 0).gcCaches "bound_op" 7 = none ∧
    inverseMissRaisesSpec (fun b r => Except.ok (b + r)) 7
      (InvState.mk [] 0 0) :=
  ⟨rfl,
   (C1_map_inverse_always_raises (fun b r => Except.ok (b + r)) 7
     (InvState.mk [] 0 0)).1 rfl⟩

/-! Lemmas about the constructor's validation pass. -/

theorem geometryCollectionValidate_ok (m : List (GeoTag × Geometry))
    (hok : entriesOK m = true) :
    geometryCollectionValidate (.dict m) = .ok m := by
  have hall := List.all_eq_true.mp hok
  have h1 : m.any (fun p => !p.2.kind.isSupported) = false := by
    rw [List.any_eq_false]
    intro p hp
    have := hall p hp
    simp only [Bool.and_eq_true] at this
    simp [this.1]
  have h2 : m.any (fun p =>
      match p.1 with
      | .str s => !is_valid_identifier s
      | _ => false) = false := by
    rw [List.any_eq_false]
    intro p hp
    have := hall p hp
    simp only [Bool.and_eq_true] at this
    cases hps : p.1 with
    | str s =>
      have h2 := this.2
      rw [hps] at h2
      simp
      exact h2
    | defaultSource => simp
    | defaultTarget => simp
  have hval : geometryCollectionValidate (.dict m)
      = (if m.any (fun p => !p.2.kind.isSupported) then
           Except.error (PyError.typeError
             "Must pass discretization, targets or layer potential sources as places")
         else if m.any (fun p =>
             match p.1 with
             | .str s => !is_valid_identifier s
             | _ => false) then
           Except.error (PyError.valueError "not a valid identifier")
         else Except.ok m) := rfl
  rw [hval, h1, h2]
  simp

theorem init_mapping_ok (m : List (GeoTag × Geometry))
    (aw : AutoWhereArg) (fid : Nat) (hok : entriesOK m = true) :
    GeometryCollection.init (.mapping m) aw fid
      = .ok ⟨m, prepare_auto_where aw .none, [], fid, fid + 1⟩ := by
  rcases hpa : prepare_auto_where aw .none with ⟨asrc, atgt⟩
  unfold GeometryCollection.init
  rw [hpa]
  show (match geometryCollectionValidate (.dict m) with
        | Except.error e => Except.error e
        | Except.ok mm =>
          Except.ok (GeometryCollection.mk mm (asrc, atgt) [] fid (fid + 1)))
      = _
  rw [geometryCollectionValidate_ok m hok]

theorem single_valued_error_of_ne (l : List Nat) (a b : Nat)
    (ha : a ∈ l) (hb : b ∈ l) (hne : a ≠ b) :
    single_valued l = .error (.valueError "sequence not single-valued") := by
  cases l with
  | nil => cases ha
  | cons x xs =>
    by_cases hc : xs.all (fun y => y = x) = true
    · exfalso
      have hmem : ∀ c : Nat, c ∈ x :: xs → c = x := by
        intro c hcm
        rcases List.mem_cons.mp hcm with h | h
        · exact h
        · simpa using List.all_eq_true.mp hc c h
      exact hne ((hmem a ha).trans (hmem b hb).symm)
    · simp only [single_valued]
      rw [if_neg (fun hh => hc (by simpa using hh))]

/-- Counterexample to claim C2 as stated: a places mapping holding two
discretizations of ambient dimensions 2 and 3 is accepted by the
`GeometryCollection` constructor without any error — the constructor
performs no ambient-dimension check, so it does not raise for this (or
any) dimension mismatch. -/
theorem C2_counterexample :
    GeometryCollection.init
        (.mapping [(.str "s1", ⟨.discr, 2⟩), (.str "s2", ⟨.discr, 3⟩)])
        .none 0
      = .ok ⟨[(.str "s1", ⟨.discr, 2⟩), (.str "s2", ⟨.discr, 3⟩)],
             (as_dofdesc .defaultSource, as_dofdesc .defaultTarget),
             [], 0, 1⟩ := by
  rfl

/-- Claim C2 (amended): the constructor does not validate ambient
dimensions.  For every places mapping passing the constructor's actual
validation (supported kinds, valid identifier keys), construction
succeeds regardless of ambient dimensions; a dimension mismatch instead
raises at the first access of the lazily evaluated `ambient_dim`
property, where `single_valued` fails. -/
theorem C2_ambient_dim_checked_lazily (m : List (GeoTag × Geometry))
    (aw : AutoWhereArg) (fid : Nat) (hok : entriesOK m = true) :
    lazyAmbientDimSpec m aw fid := by
  refine ⟨⟨m, prepare_auto_where aw .none, [], fid, fid + 1⟩,
    init_mapping_ok m aw fid hok, rfl, ?_⟩
  intro p q hp hq hne
  exact single_valued_error_of_ne _ _ _
    (List.mem_map_of_mem (fun r => r.2.ambient_dim) hp)
    (List.mem_map_of_mem (fun r => r.2.ambient_dim) hq) hne

/-- Witness for the amended claim C2: the concrete mismatched mapping of
the counterexample passes validation, is accepted by the constructor,
and fails at `ambient_dim` access. -/
theorem C2_ambient_dim_checked_lazily_witness :
    entriesOK [(.str "s1", ⟨.discr, 2⟩), (.str "s2", ⟨.discr, 3⟩)] = true ∧
    lazyAmbientDimSpec
      [(.str "s1", ⟨.discr, 2⟩), (.str "s2", ⟨.discr, 3⟩)] .none 0 :=
  ⟨by decide,
   C2_ambient_dim_checked_lazily
     [(.str "s1", ⟨.discr, 2⟩), (.str "s2", ⟨.discr, 3⟩)] .none 0
     (by decide)⟩

/-- Claim C10: constructing a collection from one bare target-set never
produces a collection (the final dispatch branch replaces the places
dict with the raw object and the validation pass then fails), while a
single potential source (QBX or otherwise) or discretization is accepted
and registered under the collection's resulting default source and
target names. -/
theorem C10_single_geometry_dispatch (g : Geometry) (fid : Nat) :
    (g.kind = .targetSet →
      GeometryCollection.init (.single g) .none fid
        = .error (.attributeError "object has no attribute itervalues")) ∧
    ((g.kind.isPotentialSource = true ∨ g.kind = .discr) →
      singleDispatchAccepted g fid) := by
  obtain ⟨k, dim⟩ := g
  cases k with
  | qbxSource =>
    exact ⟨fun hk => by simp at hk, fun _ => ⟨_, rfl, rfl, rfl⟩⟩
  | lpotSource =>
    exact ⟨fun hk => by simp at hk, fun _ => ⟨_, rfl, rfl, rfl⟩⟩
  | potentialSource =>
    exact ⟨fun hk => by simp at hk, fun _ => ⟨_, rfl, rfl, rfl⟩⟩
  | targetSet =>
    refine ⟨fun _ => rfl, fun hk => ?_⟩
    rcases hk with h | h <;> simp [GeoKind.isPotentialSource] at h
  | discr =>
    exact ⟨fun hk => by simp at hk, fun _ => ⟨_, rfl, rfl, rfl⟩⟩
  | unsupported =>
    refine ⟨fun hk => by simp at hk, fun hk => ?_⟩
    rcases hk with h | h <;> simp [GeoKind.isPotentialSource] at h

/-- Witness for claim C10: a concrete bare target of ambient dimension 2
is rejected, and a concrete discretization of ambient dimension 2 is
accepted and registered under both default names. -/
theorem C10_single_geometry_dispatch_witness :
    GeometryCollection.init (.single ⟨.targetSet, 2⟩) .none 0
      = .error (.attributeError "object has no attribute itervalues") ∧
    singleDispatchAccepted ⟨.discr, 2⟩ 0 :=
  ⟨(C10_single_geometry_dispatch ⟨.targetSet, 2⟩ 0).1 rfl,
   (C10_single_geometry_dispatch ⟨.discr, 2⟩ 0).2 (Or.inr rfl)⟩

theorem entriesOK_dictUpdate (a b : List (GeoTag × Geometry))
    (ha : entriesOK a = true) (hb : entriesOK b = true) :
    entriesOK (dictUpdate a b) = true := by
  unfold entriesOK
  rw [List.all_eq_true]
  intro p hp
  rcases mem_dictUpdate a b p hp with h | h
  · exact List.all_eq_true.mp ha p h
  · exact List.all_eq_true.mp hb p h

/-- Claim C7: `merge` produces a new collection whose places dict holds
all of the original's entries with the argument's entries overriding on
name collision, and the new collection's caches are freshly allocated
and empty (the constructor run by `copy` sets `caches = {}` and the new
dict identities are the fresh ids, so no cache state is shared with or
copied from the original); the original collection is only read — its
own places dict is copied before the update. -/
theorem C7_merge_fresh_and_override (self : GeometryCollection)
    (arg : MergeArg) (fid : Nat)
    (hself : entriesOK self.places = true)
    (harg : entriesOK (MergeArg.entries arg) = true)
    (hnd : ((MergeArg.entries arg).map Prod.fst).Nodup) :
    mergeSpec self arg fid := by
  have hupd : entriesOK (dictUpdate self.places (MergeArg.entries arg))
      = true :=
    entriesOK_dictUpdate _ _ hself harg
  have hinit := init_mapping_ok
    (dictUpdate self.places (MergeArg.entries arg))
    (.pair (.desc self.auto_where.1) (.desc self.auto_where.2)) fid hupd
  have hmerge : self.merge (.some arg) fid
      = .ok ⟨dictUpdate self.places (MergeArg.entries arg),
             (self.auto_where.1, self.auto_where.2), [], fid, fid + 1⟩ := by
    cases arg with
    | dict m => exact hinit
    | coll gc => exact hinit
  refine ⟨_, hmerge, ?_, ?_, rfl, rfl, rfl⟩
  · intro k v hv
    exact dictGet?_dictUpdate_some self.places (MergeArg.entries arg) k v
      hnd hv
  · intro k hk
    exact dictGet?_dictUpdate_none self.places (MergeArg.entries arg) k hk

/-- Witness for claim C7: merging a concrete collection (with a
populated cache) with a dict adding a new name; validation hypotheses
discharged by computation. -/
theorem C7_merge_fresh_and_override_witness :
    entriesOK [(GeoTag.str "src", ⟨GeoKind.qbxSource, 2⟩)] = true ∧
    entriesOK [(GeoTag.str "tgt", ⟨GeoKind.targetSet, 2⟩)] = true ∧
    mergeSpec
      ⟨[(.str "src", ⟨.qbxSource, 2⟩)],
       (as_dofdesc .defaultSource, as_dofdesc .defaultTarget),
       [("cse", [(1, 2)])], 0, 1⟩
      (.dict [(.str "tgt", ⟨.targetSet, 2⟩)]) 5 :=
  ⟨by decide, by decide,
   C7_merge_fresh_and_override
     ⟨[(.str "src", ⟨.qbxSource, 2⟩)],
      (as_dofdesc .defaultSource, as_dofdesc .defaultTarget),
      [("cse", [(1, 2)])], 0, 1⟩
     (.dict [(.str "tgt", ⟨.targetSet, 2⟩)]) 5
     (by decide) (by decide) (by decide)⟩

/-! Lemmas about the elementwise-reduction kernels. -/

theorem nodeReduce_eq_flatten {α : Type} (red : List α → α) :
    ∀ (gs : List ElGroup) (ops : List α),
      nodeReduce red gs ops
        = ((elementDofRows gs ops).map
            (fun p => List.replicate p.1 (red p.2))).flatten := by
  intro gs
  induction gs with
  | nil => intro ops; rfl
  | cons g gs ih =>
    intro ops
    show ((groupRows g ops).map
        (fun row => List.replicate g.ndofs (red row))).flatten
        ++ nodeReduce red gs (ops.drop g.nnodes) = _
    rw [ih (ops.drop g.nnodes)]
    show _ = (((groupRows g ops).map (fun r => (g.ndofs, r))
        ++ elementDofRows gs (ops.drop g.nnodes)).map
          (fun p => List.replicate p.1 (red p.2))).flatten
    rw [List.map_append, List.flatten_append, List.map_map]
    rfl

theorem elementReduce_eq_map {α : Type} (red : List α → α) :
    ∀ (gs : List ElGroup) (ops : List α),
      elementReduce red gs ops
        = (elementDofRows gs ops).map (fun p => red p.2) := by
  intro gs
  induction gs with
  | nil => intro ops; rfl
  | cons g gs ih =>
    intro ops
    show (groupRows g ops).map red
        ++ elementReduce red gs (ops.drop g.nnodes) = _
    rw [ih (ops.drop g.nnodes)]
    show _ = (((groupRows g ops).map (fun r => (g.ndofs, r))
        ++ elementDofRows gs (ops.drop g.nnodes)).map (fun p => red p.2))
    rw [List.map_append, List.map_map]
    rfl

theorem elementDofRows_length {α : Type} :
    ∀ (gs : List ElGroup) (ops : List α),
      (elementDofRows gs ops).length
        = (gs.map (fun g => g.nelements)).sum := by
  intro gs
  induction gs with
  | nil => intro ops; rfl
  | cons g gs ih =>
    intro ops
    show ((groupRows g ops).map (fun r => (g.ndofs, r))
        ++ elementDofRows gs (ops.drop g.nnodes)).length = _
    rw [List.length_append, List.length_map, ih (ops.drop g.nnodes)]
    simp [groupRows]

theorem elementDofRows_fst {α : Type} :
    ∀ (gs : List ElGroup) (ops : List α) (p : Nat × List α),
      p ∈ elementDofRows gs ops → ∃ g ∈ gs, p.1 = g.ndofs := by
  intro gs
  induction gs with
  | nil => intro ops p hp; cases hp
  | cons g gs ih =>
    intro ops p hp
    rcases List.mem_append.mp hp with h | h
    · rcases List.mem_map.mp h with ⟨r, hr, hpr⟩
      exact ⟨g, List.mem_cons_self g gs, by rw [← hpr]⟩
    · rcases ih (ops.drop g.nnodes) p h with ⟨g', hg', hpg'⟩
      exact ⟨g', List.mem_cons_of_mem g hg', hpg'⟩

theorem nodeReduce_length {α : Type} (red : List α → α)
    (gs : List ElGroup) (ops : List α) :
    (nodeReduce red gs ops).length
      = ((elementDofRows gs ops).map Prod.fst).sum := by
  rw [nodeReduce_eq_flatten red gs ops, List.length_flatten, List.map_map]
  congr 1
  apply List.map_congr_left
  intro p hp
  simp [List.length_replicate]

theorem elementDofRows_fst_sum {α : Type} :
    ∀ (gs : List ElGroup) (ops : List α),
      ((elementDofRows gs ops).map Prod.fst).sum
        = (gs.map ElGroup.nnodes).sum := by
  intro gs
  induction gs with
  | nil => intro ops; rfl
  | cons g gs ih =>
    intro ops
    show (((groupRows g ops).map (fun r => (g.ndofs, r))
        ++ elementDofRows gs (ops.drop g.nnodes)).map Prod.fst).sum = _
    rw [List.map_append, List.sum_append, List.map_map,
      ih (ops.drop g.nnodes)]
    have hc : (Prod.fst ∘ fun r : List α => (g.ndofs, r))
        = fun _ => g.ndofs := rfl
    rw [hc, List.map_const', List.sum_replicate, smul_eq_mul]
    have hl : (groupRows g ops).length = g.nelements := by
      simp [groupRows]
    rw [hl]
    rfl

theorem flatten_block_get {α : Type} :
    ∀ (L : List (List α)) (e : Nat), e < L.length →
      ((L.flatten.drop (((L.take e).map List.length).sum)).take
          (L.getD e []).length)
        = L.getD e [] := by
  intro L
  induction L with
  | nil => intro e he; simp at he
  | cons l ls ih =>
    intro e he
    cases e with
    | zero => simp [List.flatten_cons, List.take_left]
    | succ e =>
      have he' : e < ls.length := Nat.lt_of_succ_lt_succ he
      rw [List.getD_cons_succ, List.take_succ_cons, List.map_cons,
        List.sum_cons, List.flatten_cons]
      have hd : (l ++ ls.flatten).drop
          (l.length + ((ls.take e).map List.length).sum)
          = ls.flatten.drop (((ls.take e).map List.length).sum) := by
        rw [← List.drop_drop, List.drop_left]
      rw [hd]
      exact ih e he'

/-- Claim C4: for a per-node DOF vector operand, the elementwise
reduction at node granularity returns a vector of the operand's shape in
which every node of one element holds that element's reduced value; at
element granularity it returns one value per mesh element indexed by
global element number; and for any other requested granularity it fails
with the unsupported-granularity error. -/
theorem C4_elementwise_reduction {α : Type} [Inhabited α]
    (red : List α → α) (d : Discr) (ops : List α)
    (h : ops.length = d.nnodes) :
    elementwiseReductionSpec red d ops := by
  refine ⟨⟨nodeReduce red d.groups ops, ?_, ?_, ?_⟩,
          ⟨elementReduce red d.groups ops, ?_, ?_, ?_⟩, ?_⟩
  · simp [mapElementwiseReduction, h]
  · rw [nodeReduce_length, elementDofRows_fst_sum, h]
    rfl
  · intro e he
    rw [nodeReduce_eq_flatten]
    have hLlen : ((elementDofRows d.groups ops).map
        (fun p => List.replicate p.1 (red p.2))).length
        = (elementDofRows d.groups ops).length := List.length_map _ _
    have hgetL : ((elementDofRows d.groups ops).map
        (fun p => List.replicate p.1 (red p.2))).getD e []
        = List.replicate ((elementDofRows d.groups ops).getD e default).1
            (red ((elementDofRows d.groups ops).getD e default).2) := by
      rw [List.getD_eq_getElem?_getD, List.getElem?_map,
        List.getElem?_eq_getElem he]
      rw [List.getD_eq_getElem?_getD, List.getElem?_eq_getElem he]
      rfl
    have hsum : ((((elementDofRows d.groups ops).map
        (fun p => List.replicate p.1 (red p.2))).take e).map
          List.length).sum
        = (((elementDofRows d.groups ops).take e).map Prod.fst).sum := by
      rw [← List.map_take, List.map_map]
      congr 1
      apply List.map_congr_left
      intro p hp
      simp
    have hmain := flatten_block_get
      ((elementDofRows d.groups ops).map
        (fun p => List.replicate p.1 (red p.2))) e
      (by rw [hLlen]; exact he)
    rw [hsum, hgetL] at hmain
    rw [List.length_replicate] at hmain
    exact hmain
  · simp [mapElementwiseReduction, h]
  · rw [elementReduce_eq_map, List.length_map, elementDofRows_length]
    rfl
  · intro e he
    rw [elementReduce_eq_map]
    rw [List.getD_eq_getElem?_getD, List.getElem?_map,
      List.getElem?_eq_getElem he]
    rw [List.getD_eq_getElem?_getD, List.getElem?_eq_getElem he]
    rfl
  · simp [mapElementwiseReduction, h]

/-- Witness for claim C4: a two-group discretization (two elements of
three nodes, one element of two nodes), the sum reduction, and the
concrete operand `[1, ..., 8]`. -/
theorem C4_elementwise_reduction_witness :
    ([1, 2, 3, 4, 5, 6, 7, 8] : List Nat).length
        = (Discr.mk [⟨2, 3⟩, ⟨1, 2⟩]).nnodes ∧
    elementwiseReductionSpec List.sum (Discr.mk [⟨2, 3⟩, ⟨1, 2⟩])
      [1, 2, 3, 4, 5, 6, 7, 8] :=
  ⟨by decide,
   C4_elementwise_reduction List.sum (Discr.mk [⟨2, 3⟩, ⟨1, 2⟩])
     [1, 2, 3, 4, 5, 6, 7, 8] (by decide)⟩

/-! Lemmas about the scipy_op offset table and matvec splitting. -/

theorem seBuild_length :
    ∀ (doms : List OpDomain) (t : Nat),
      (seBuild doms t).length = doms.length := by
  intro doms
  induction doms with
  | nil => intro t; rfl
  | cons d ds ih =>
    intro t
    show (seBuild ds (t + d.size)).length + 1 = ds.length + 1
    rw [ih (t + d.size)]

theorem seBuild_getElem? :
    ∀ (doms : List OpDomain) (t i : Nat) (dm : OpDomain),
      doms[i]? = some dm →
      (seBuild doms t)[i]? =
        some (t + ((doms.take i).map OpDomain.size).sum,
              t + ((doms.take i).map OpDomain.size).sum + dm.size) := by
  intro doms
  induction doms with
  | nil => intro t i dm h; simp at h
  | cons d ds ih =>
    intro t i dm h
    cases i with
    | zero =>
      simp only [List.getElem?_cons_zero, Option.some.injEq] at h
      subst h
      simp [seBuild]
    | succ i =>
      have h' : ds[i]? = some dm := by simpa using h
      rw [show seBuild (d :: ds) t
            = (t, t + d.size) :: seBuild ds (t + d.size) from rfl,
        List.getElem?_cons_succ, ih (t + d.size) i dm h']
      simp [List.take_succ_cons, Nat.add_assoc]

theorem seBuild_slices {α : Type} :
    ∀ (doms : List OpDomain) (y : List α) (t : Nat),
      (seBuild doms t).map (fun p => listSlice y p.1 p.2)
        = seqChunks doms (y.drop t) := by
  intro doms
  induction doms with
  | nil => intro y t; rfl
  | cons d ds ih =>
    intro y t
    show listSlice y t (t + d.size)
        :: (seBuild ds (t + d.size)).map (fun p => listSlice y p.1 p.2)
      = (y.drop t).take d.size :: seqChunks ds ((y.drop t).drop d.size)
    congr 1
    · show (y.drop t).take (t + d.size - t) = (y.drop t).take d.size
      rw [Nat.add_sub_cancel_left]
    · rw [ih y (t + d.size), List.drop_drop]

theorem seqChunks_flatten {α : Type} :
    ∀ (doms : List OpDomain) (r : List α), r.length = totalDofs doms →
      (seqChunks doms r).flatten = r := by
  intro doms
  induction doms with
  | nil =>
    intro r h
    have hr : r = [] := List.eq_nil_of_length_eq_zero h
    simp [hr, seqChunks]
  | cons d ds ih =>
    intro r h
    have htot : totalDofs (d :: ds) = d.size + totalDofs ds := by
      simp [totalDofs]
    have hdr : (r.drop d.size).length = totalDofs ds := by
      rw [List.length_drop, h, htot]
      omega
    show (r.take d.size :: seqChunks ds (r.drop d.size)).flatten = r
    rw [List.flatten_cons, ih (r.drop d.size) hdr, List.take_append_drop]

theorem writeSeg_foldl {α : Type} :
    ∀ (doms : List OpDomain) (r : List α) (t : Nat) (buf : List α),
      r.length = totalDofs doms →
      buf.length = t + totalDofs doms →
      ((seqChunks doms r).zip (seBuild doms t)).foldl
          (fun b pr => writeSeg b pr.2.1 pr.1) buf
        = buf.take t ++ r := by
  intro doms
  induction doms with
  | nil =>
    intro r t buf hr hb
    have hr0 : r = [] := List.eq_nil_of_length_eq_zero hr
    subst hr0
    have ht : t = buf.length := by
      simp [totalDofs] at hb
      omega
    show buf = buf.take t ++ []
    rw [List.append_nil, ht, List.take_length]
  | cons d ds ih =>
    intro r t buf hr hb
    have htot : totalDofs (d :: ds) = d.size + totalDofs ds := by
      simp [totalDofs]
    have hsize : d.size ≤ r.length := by
      rw [hr, htot]
      omega
    have hrt : (r.take d.size).length = d.size := by
      rw [List.length_take]
      omega
    have hdr : (r.drop d.size).length = totalDofs ds := by
      rw [List.length_drop, hr, htot]
      omega
    have htle : t ≤ buf.length := by
      rw [hb]
      omega
    show ((seqChunks ds (r.drop d.size)).zip (seBuild ds (t + d.size))).foldl
        (fun b pr => writeSeg b pr.2.1 pr.1)
        (writeSeg buf t (r.take d.size)) = buf.take t ++ r
    have hbuf1 : writeSeg buf t (r.take d.size)
        = (buf.take t ++ r.take d.size) ++ buf.drop (t + d.size) := by
      unfold writeSeg
      rw [hrt, List.append_assoc]
    have hABlen : (buf.take t ++ r.take d.size).length = t + d.size := by
      rw [List.length_append, List.length_take, hrt]
      omega
    have hb1 : ((buf.take t ++ r.take d.size) ++ buf.drop (t + d.size)).length
        = (t + d.size) + totalDofs ds := by
      rw [List.length_append, hABlen, List.length_drop, hb, htot]
      omega
    rw [hbuf1, ih (r.drop d.size) (t + d.size) _ hdr hb1]
    rw [← hABlen, List.take_left]
    rw [List.append_assoc, List.take_append_drop]

theorem matvec_onHost {α : Type} [Inhabited α]
    (evalB : ArrOrObj α → ArrOrObj α) (se : List (Nat × Nat))
    (total : Nat) (x : HVec α) :
    (matvec evalB se total x).onHost = x.onHost := by
  unfold matvec
  by_cases hc : se.length > 1
  · rw [if_pos hc]
  · rw [if_neg hc]

theorem matvec_id_roundtrip {α : Type} [Inhabited α]
    (doms : List OpDomain) (x : HVec α)
    (h1 : 1 < doms.length) (h2 : x.data.length = totalDofs doms) :
    matvec (fun r => r) (startsAndEnds doms) (totalDofs doms) x = x := by
  unfold matvec
  rw [if_pos (by rw [startsAndEnds, seBuild_length]; exact h1)]
  show HVec.mk x.onHost
      ((((startsAndEnds doms).map
          (fun p => listSlice x.data p.1 p.2)).zip (startsAndEnds doms)).foldl
        (fun buf pr => writeSeg buf pr.2.1 pr.1)
        (List.replicate (totalDofs doms) default)) = x
  have hslices : (startsAndEnds doms).map (fun p => listSlice x.data p.1 p.2)
      = seqChunks doms x.data := by
    rw [startsAndEnds, seBuild_slices doms x.data 0, List.drop_zero]
  rw [hslices, startsAndEnds,
    writeSeg_foldl doms x.data 0 (List.replicate (totalDofs doms) default)
      h2 (by rw [List.length_replicate]; omega)]
  simp

/-- Claim C5: for a `MatVecOp` with multiple declared domains, `matvec`
splits the flat input into contiguous per-domain segments by the
precomputed `(start, end)` offset table built in declaration order
(a scalar/None domain contributing 1, a discretization domain its node
count), re-concatenates per-domain results in the same offset layout —
so splitting then re-concatenating unmodified segments reproduces the
input exactly — and the returned vector has the input's host/device
residency. -/
theorem C5_matvec_split_roundtrip {α : Type} [Inhabited α]
    (doms : List OpDomain) (x : HVec α)
    (h1 : 1 < doms.length) (h2 : x.data.length = totalDofs doms) :
    matvecSplitSpec doms x := by
  refine ⟨?_, ?_, ?_, ?_, ?_⟩
  · intro i dm hi
    have hh := seBuild_getElem? doms 0 i dm hi
    simpa using hh
  · rw [startsAndEnds, seBuild_slices doms x.data 0, List.drop_zero]
  · exact seqChunks_flatten doms x.data h2
  · exact matvec_id_roundtrip doms x h1 h2
  · intro evalB
    exact matvec_onHost evalB (startsAndEnds doms) (totalDofs doms) x

/-- Witness for claim C5: three declared domains (a discretization with
two nodes, a scalar, a discretization with three nodes) and the concrete
host-resident input `[10, ..., 60]` of total size 6. -/
theorem C5_matvec_split_roundtrip_witness :
    1 < ([OpDomain.geom 2, OpDomain.scalar, OpDomain.geom 3]).length ∧
    (HVec.mk true [10, 20, 30, 40, 50, 60] : HVec Nat).data.length
        = totalDofs [OpDomain.geom 2, OpDomain.scalar, OpDomain.geom 3] ∧
    matvecSplitSpec [OpDomain.geom 2, OpDomain.scalar, OpDomain.geom 3]
      (HVec.mk true [10, 20, 30, 40, 50, 60]) :=
  ⟨by decide, by decide,
   C5_matvec_split_roundtrip
     [OpDomain.geom 2, OpDomain.scalar, OpDomain.geom 3]
     (HVec.mk true [10, 20, 30, 40, 50, 60]) (by decide) (by decide)⟩
